import Mathlib

/-!
Verification of the heuristic field classification and extraction engine of the
Automated-Payee-Name-Extraction repository.

The development shallowly embeds the Python sources:
  * `src/src/extract_payee.py`  (payee / check-number extraction, confidence),
  * `src/app/parsers/statement_parser.py` (section decomposition, fallback
    column classifier, record extraction, assembly),
  * `src/app/ocr/ocr.py` (the alternative OCR extraction path).

Modelling conventions:
  * Python strings are `List Char` (`Str`).  Character classes (`\s`, `\d`,
    `\w`, `str.isalnum`, upper/lower casing) use their ASCII meaning.
  * Python floats are modelled by `ℚ` (exact arithmetic).
  * `datetime.strptime` and `float(...)` of the standard library, and the
    remote LLM column classifier, are collaborators: they are parameters of
    the statement-path definitions, so every theorem about that path holds
    for every possible behaviour of those collaborators.
  * Python's stable `list.sort(key=...)` is modelled by `List.insertionSort`
    with the non-strict key order, which is also stable.
  * A regex `X$` (without `re.MULTILINE`) also matches when a single final
    newline follows `X`; the helper `withOptNl` reproduces this.
-/

/-- Python strings, as lists of characters. -/
abbrev Str := List Char

/-- The character set stripped by Python `str.strip()` and matched by `\s`
(ASCII fragment). -/
def pyIsSpace (c : Char) : Bool :=
  c = ' ' || c = '\t' || c = '\n' || c = '\x0d' || c = '\x0b' || c = '\x0c'

/-- `\w` (ASCII fragment): letters, digits and underscore. -/
def isWordChar (c : Char) : Bool :=
  c.isAlpha || c.isDigit || c = '_'

/-- Drop the longest suffix of `l` whose characters satisfy `p`. -/
def dropTrailWhile (p : Char → Bool) (l : Str) : Str :=
  (l.reverse.dropWhile p).reverse

/-- Python `s.strip(chars)`: remove leading and trailing characters from the
set decided by `p`. -/
def pyStripP (p : Char → Bool) (s : Str) : Str :=
  dropTrailWhile p (s.dropWhile p)

/-- Python `s.strip()` (whitespace). -/
def pyStrip (s : Str) : Str :=
  pyStripP pyIsSpace s

/-- Python `s.lower()` (ASCII). -/
def pyLower (s : Str) : Str :=
  s.map Char.toLower

/-- Python `s.upper()` (ASCII). -/
def pyUpper (s : Str) : Str :=
  s.map Char.toUpper

/-- Python `needle in haystack` for strings: substring test. -/
def containsSub (haystack needle : Str) : Bool :=
  (List.range (haystack.length + 1)).any (fun i => needle.isPrefixOf (haystack.drop i))

/-- Python `s.split('\n')` (keeps empty parts). -/
def splitNl : Str → List Str
  | [] => [[]]
  | c :: cs =>
    if c = '\n' then [] :: splitNl cs
    else
      match splitNl cs with
      | [] => [[c]]
      | p :: ps => (c :: p) :: ps

/-- Python `s.split()` (split on whitespace runs, no empty parts), used via
`re.split(r"\s+", s)` with empty strings filtered out. -/
def pyWords (s : Str) : List Str :=
  (s.splitOnP pyIsSpace).filter (fun w => !w.isEmpty)

/-- `lines = [line.strip() for line in full_text.split('\n') if line.strip()]`
(extract_payee.py lines 61–63 and 263–264). -/
def linesOf (fullText : Str) : List Str :=
  ((splitNl fullText).map pyStrip).filter (fun l => !l.isEmpty)

/-- A regex `X$` without `re.MULTILINE` matches either at the very end or just
before a single final newline; `withOptNl p` extends the full-match predicate
`p` accordingly. -/
def withOptNl (p : Str → Bool) (s : Str) : Bool :=
  p s || (!s.isEmpty && s.getLast? = some '\n' && p s.dropLast)

/-- All characters are ASCII digits and the string is non-empty. -/
def allDigits (s : Str) : Bool :=
  !s.isEmpty && s.all Char.isDigit

/-- Core of `re.match(r'^\d{4,5}$', s)`: 4 or 5 digits. -/
def digits45core (s : Str) : Bool :=
  s.all Char.isDigit && (s.length = 4 || s.length = 5)

/-- `re.match(r'^\d{4,5}$', s)` as a Bool (extract_payee.py lines 268, 279). -/
def matchDigits45 (s : Str) : Bool :=
  withOptNl digits45core s

/-- Length of the maximal run of characters satisfying `p` at the head of `s`. -/
def runLen (p : Char → Bool) (s : Str) : Nat :=
  (s.takeWhile p).length

/-- First `some` value produced by `f` along the list (Python
`for x in l: if hit: return`). -/
def firstSome (f : α → Option β) : List α → Option β
  | [] => none
  | x :: xs =>
    match f x with
    | some b => some b
    | none => firstSome f xs

/-- The sentinel `"Not found"`. -/
def NOT_FOUND : Str := ("Not found").data

/-! ## `clean_payee_name` (extract_payee.py lines 247–258) -/

/-- One optional group of line 249 (case-insensitive): if the string starts
with the two given letters followed by at least one whitespace character,
drop them and the greedy whitespace run. -/
def dropTagWs (u1 l1 u2 l2 : Char) (s : Str) : Str :=
  match s with
  | a :: b :: rest =>
    if (a = u1 || a = l1) && (b = u2 || b = l2) && 0 < runLen pyIsSpace rest then
      rest.dropWhile pyIsSpace
    else s
  | _ => s

/-- Line 249: `re.sub` of the leading pattern: greedily drop leading
whitespace, then an optional `RD` with trailing whitespace, then an optional
`OF` with trailing whitespace (both case-insensitive). -/
def stripLeadRdOf (s : Str) : Str :=
  dropTagWs 'O' 'o' 'F' 'f' (dropTagWs 'R' 'r' 'D' 'd' (s.dropWhile pyIsSpace))

/-- Line 251: `payee.strip('.,;: \t\n')`. -/
def stripPunct (s : Str) : Str :=
  pyStripP (fun c => c = '.' || c = ',' || c = ';' || c = ':' || c = ' ' || c = '\t' || c = '\n') s

/-- Line 253: `re.sub(r'^\$\s*', '', payee)`. -/
def stripLeadDollar (s : Str) : Str :=
  match s with
  | '$' :: rest => rest.dropWhile pyIsSpace
  | _ => s

/-- `.*$` starting right after a `'$'` can reach an anchor of `$` iff the
remaining text contains no interior newline: either no `'\n'` at all, or a
single final `'\n'`. -/
def goodDollarTail (t : Str) : Bool :=
  !t.contains '\n' || (t.getLast? == some '\n' && !t.dropLast.contains '\n')

/-- Line 254: `re.sub(r'\s*\$.*$', '', payee)`.  The leftmost match starts at
the first `'$'` whose tail has no interior newline, minus the whitespace run
immediately before it; the match extends to the end of the string except that
`.*` cannot consume a final newline, which is therefore kept. -/
def subDollarTail (s : Str) : Str :=
  match (List.range s.length).find?
      (fun q => ((s.drop q).head? == some '$') && goodDollarTail (s.drop (q + 1))) with
  | none => s
  | some q =>
    let p := q - runLen pyIsSpace (s.take q).reverse
    s.take p ++ (if (s.drop (q + 1)).contains '\n' then ['\n'] else [])

/-- The suffix `t` matches `\s+\d+[,.]?\d*\s*` entirely (up to the `$` anchor,
a possible final newline being consumed by the greedy `\s*`). -/
def trailNumTail (t : Str) : Bool :=
  let w := runLen pyIsSpace t
  if w = 0 then false
  else
    let t1 := t.drop w
    let d := runLen Char.isDigit t1
    if d = 0 then false
    else
      let t2 := t1.drop d
      let t3 :=
        match t2 with
        | c :: rest => if c = ',' || c = '.' then rest.dropWhile Char.isDigit else t2
        | [] => t2
      t3.all pyIsSpace

/-- Line 256: `re.sub(r'\s+\d+[,.]?\d*\s*$', '', payee)`: delete from the
leftmost position whose suffix matches the whole pattern. -/
def subTrailNum (s : Str) : Str :=
  match (List.range s.length).find? (fun p => trailNumTail (s.drop p)) with
  | none => s
  | some p => s.take p

/-- `clean_payee_name` (extract_payee.py lines 247–258). -/
def cleanPayeeName (payee : Str) : Str :=
  pyStrip (subTrailNum (subDollarTail (stripLeadDollar (stripPunct (stripLeadRdOf payee)))))

/-! ## `is_valid_payee` (extract_payee.py lines 215–244) -/

/-- The spelled-out-amount vocabulary of `is_valid_payee` and
`score_payee_quality`. -/
def AMOUNT_WORDS : List Str :=
  (["ZERO", "ONE", "TWO", "THREE", "FOUR", "FIVE",
    "SIX", "SEVEN", "EIGHT", "NINE", "TEN", "ELEVEN", "TWELVE",
    "THIRTEEN", "FOURTEEN", "FIFTEEN", "SIXTEEN", "SEVENTEEN", "EIGHTEEN", "NINETEEN",
    "TWENTY", "THIRTY", "FORTY", "FIFTY", "SIXTY", "SEVENTY", "EIGHTY", "NINETY",
    "HUNDRED", "THOUSAND", "MILLION", "BILLION", "DOLLARS"]).map String.data

/-- Core of the date shape regex: 1–2 digits, a dash or slash, 1–2 digits,
a dash or slash, then 2–4 digits. -/
def dateCore (s : Str) : Bool :=
  let a := runLen Char.isDigit s
  if !(a = 1 || a = 2) then false
  else
    match s.drop a with
    | c1 :: r1 =>
      if !(c1 = '-' || c1 = '/') then false
      else
        let b := runLen Char.isDigit r1
        if !(b = 1 || b = 2) then false
        else
          match r1.drop b with
          | c2 :: r2 =>
            if !(c2 = '-' || c2 = '/') then false
            else allDigits r2 && 2 ≤ r2.length && r2.length ≤ 4
          | [] => false
    | [] => false

/-- The date-shape `re.match` of extract_payee.py lines 130 and 226 as a Bool. -/
def dateShaped (s : Str) : Bool :=
  withOptNl dateCore s

/-- One match position of `,\s*[A-Z]{2}(?:\s*\d{5})?$` (anchored at the end). -/
def cityStAt (s : Str) (i : Nat) : Bool :=
  match s.drop i with
  | ',' :: t =>
    let u := t.dropWhile pyIsSpace
    match u with
    | a :: b :: v =>
      if !(a.isUpper && b.isUpper) then false
      else if v.isEmpty then true
      else
        let w := v.dropWhile pyIsSpace
        w.length = 5 && w.all Char.isDigit
    | _ => false
  | _ => false

/-- `re.search(r",\s*[A-Z]{2}(?:\s*\d{5})?$", s)` as a Bool. -/
def endsCitySt (s : Str) : Bool :=
  (List.range s.length).any (fun i => cityStAt s i)

/-- `is_valid_payee` (extract_payee.py lines 215–244). -/
def isValidPayee (payee : Str) : Bool :=
  if payee.isEmpty || payee = NOT_FOUND then false
  else if payee.length < 2 then false
  else if payee.all (fun c => c.isDigit || pyIsSpace c || c = '.' || c = ',') then false
  else if dateShaped payee then false
  else if (pyWords (pyUpper payee)).all (fun w => AMOUNT_WORDS.contains w) then false
  else if endsCitySt (pyUpper (pyStrip payee)) then false
  else if !payee.any Char.isAlpha then false
  else true

/-! ## `extract_payee_name` (extract_payee.py lines 58–151) -/

/-- Word boundary just before position `i` (position `i` is assumed to hold a
word character). -/
def boundaryBefore (s : Str) (i : Nat) : Bool :=
  match i with
  | 0 => true
  | Nat.succ j =>
    match (s.drop j).head? with
    | some c => !isWordChar c
    | none => true

/-- Word boundary just after position `i - 1` (the character before position
`i` is assumed to be a word character). -/
def boundaryAt (s : Str) (i : Nat) : Bool :=
  match (s.drop i).head? with
  | some c => !isWordChar c
  | none => true

/-- A case-insensitive `\bOF\b` match starting at position `i`. -/
def ofTokenAt (s : Str) (i : Nat) : Bool :=
  boundaryBefore s i &&
  (match s.drop i with
   | a :: b :: _ => (a = 'O' || a = 'o') && (b = 'F' || b = 'f') && boundaryAt s (i + 2)
   | _ => false)

/-- `re.search(r'\bOF\b', line, re.IGNORECASE)` (line 72). -/
def ofTokenSearch (s : Str) : Bool :=
  (List.range s.length).any (fun i => ofTokenAt s i)

/-- End position of a case-insensitive `\b(?:RD\s+)?OF\b` match starting at
position `i`, if any (the split delimiter of line 74). -/
def rdOfMatchEnd (s : Str) (i : Nat) : Option Nat :=
  if !boundaryBefore s i then none
  else
    match s.drop i with
    | a :: b :: rest =>
      if (a = 'R' || a = 'r') && (b = 'D' || b = 'd') && 0 < runLen pyIsSpace rest then
        let k := runLen pyIsSpace rest
        match rest.drop k with
        | c :: d :: _ =>
          if (c = 'O' || c = 'o') && (d = 'F' || d = 'f') && boundaryAt s (i + 2 + k + 2) then
            some (i + 2 + k + 2)
          else none
        | _ => none
      else if (a = 'O' || a = 'o') && (b = 'F' || b = 'f') && boundaryAt s (i + 2) then
        some (i + 2)
      else none
    | _ => none

/-- End of the last delimiter found by `re.split(r'\b(?:RD\s+)?OF\b', line,
flags=re.IGNORECASE)`; `parts[-1]` is the text after it.  Any two overlapping
matches of this pattern end at the same position, so the maximum over all
single-match ends coincides with the end of the last match of the
non-overlapping left-to-right scan. -/
def rdOfLastEnd (s : Str) : Option Nat :=
  (List.range s.length).foldl
    (fun acc i =>
      match rdOfMatchEnd s i with
      | some e => match acc with
        | none => some e
        | some m => some (max m e)
      | none => acc)
    none

/-- Strategy 1 body for one line (lines 70–81): split on the `OF` delimiter,
take the last part, clean it, keep it when valid. -/
def strat1Line (line : Str) : Option Str :=
  if ofTokenSearch line then
    match rdOfLastEnd line with
    | some e =>
      let payee := cleanPayeeName (pyStrip (line.drop e))
      if isValidPayee payee then some payee else none
    | none => none
  else none

/-- `re.search(r'^(?:RD\s+)?OF\s*$', line, re.IGNORECASE)` (lines 86 and 126). -/
def isOfMarkerLine (s : Str) : Bool :=
  let t :=
    match s with
    | a :: b :: rest =>
      if (a = 'R' || a = 'r') && (b = 'D' || b = 'd') && 0 < runLen pyIsSpace rest then
        rest.dropWhile pyIsSpace
      else s
    | _ => s
  match t with
  | a :: b :: rest => (a = 'O' || a = 'o') && (b = 'F' || b = 'f') && rest.all pyIsSpace
  | _ => false

/-- Strategy 2 (lines 85–92): a pure `OF` marker line, preceded by the payee. -/
def strat2 (lines : List Str) : Option Str :=
  firstSome
    (fun i =>
      match (lines.drop i).head? with
      | some line =>
        if isOfMarkerLine line && 0 < i then
          let payee := cleanPayeeName (pyStrip ((lines.drop (i - 1)).headD []))
          if isValidPayee payee then some payee else none
        else none
      | none => none)
    (List.range lines.length)

/-- Company-header keywords of strategy 3 (lines 96–99). -/
def COMPANY_KEYWORDS : List Str :=
  (["Love United Transport", "BUSHBERRY", "PAY", "TO THE", "CHASE", "JPMorgan"]).map String.data

/-- Monetary/boilerplate keywords of strategy 3 (lines 100–103). -/
def AMOUNT_KEYWORDS : List Str :=
  (["THOUSAND", "HUNDRED", "DOLLARS", "$", "FOR", "DATE", "PAY TO THE ORDER OF",
    "MEMO", "AMOUNT"]).map String.data

/-- Location-noise keywords of strategy 3 (lines 104–106). -/
def LOCATION_NOISE_KEYWORDS : List Str :=
  (["FONTANA", "CA", "USA", "CITY", "STATE", "ZIP"]).map String.data

/-- `any(keyword.lower() in line.lower() for keyword in kws)`. -/
def lineHasKw (kws : List Str) (line : Str) : Bool :=
  kws.any (fun kw => containsSub (pyLower line) (pyLower kw))

/-- Lines 109–112: index just after the last company-keyword line (0 if none). -/
def companyEndIdx (lines : List Str) : Nat :=
  (List.range lines.length).foldl
    (fun acc i => if lineHasKw COMPANY_KEYWORDS ((lines.drop i).headD []) then i + 1 else acc)
    0

/-- Lines 114–119: index of the first amount-keyword line (length if none). -/
def amountStartIdx (lines : List Str) : Nat :=
  match (List.range lines.length).find?
      (fun i => lineHasKw AMOUNT_KEYWORDS ((lines.drop i).headD [])) with
  | some i => i
  | none => lines.length

/-- `re.match(r'^\d+$', line)` as a Bool. -/
def pureNum (s : Str) : Bool :=
  withOptNl allDigits s

/-- Strategy 3 (lines 94–142): scan between the company header and the amount
block, skipping markers, numbers, dates and location noise. -/
def strat3 (lines : List Str) : Option Str :=
  let a := companyEndIdx lines
  let b := amountStartIdx lines
  firstSome
    (fun i =>
      if i < lines.length then
        let line := (lines.drop i).headD []
        if isOfMarkerLine line then none
        else if pureNum line then none
        else if dateShaped line then none
        else if endsCitySt (pyStrip line) then none
        else if lineHasKw LOCATION_NOISE_KEYWORDS line then none
        else
          let payee := cleanPayeeName line
          if isValidPayee payee then some payee else none
      else none)
    (List.range' a (b - a))

/-! ## Spatial payee extraction (extract_payee.py lines 154–212) -/

/-- An OCR token: recognized text plus bounding-polygon vertices
(`v.get("x", 0)`, `v.get("y", 0)` modelled as always-present coordinates). -/
structure Tok where
  desc : Str
  verts : List (ℤ × ℤ)
deriving DecidableEq

/-- Python `min` over a list of ints (never called on `[]` by the embedded
code, which guards `len(vertices) < 4`). -/
def listMinZ : List ℤ → ℤ
  | [] => 0
  | x :: xs => xs.foldl min x

/-- Python `max` over a list of ints. -/
def listMaxZ : List ℤ → ℤ
  | [] => 0
  | x :: xs => xs.foldl max x

/-- A word box derived from a token (lines 163–179; ocr.py stores the same
data minus `min_y`/`max_y`, recomputed identically). -/
structure WordBox where
  desc : Str
  min_x : ℤ
  max_x : ℤ
  min_y : ℤ
  max_y : ℤ
deriving DecidableEq

/-- `center_y = (min_y + max_y) / 2`. -/
def wbCenterY (w : WordBox) : ℚ :=
  ((w.min_y : ℚ) + (w.max_y : ℚ)) / 2

/-- `height = max_y - min_y`. -/
def wbHeight (w : WordBox) : ℤ :=
  w.max_y - w.min_y

/-- Lines 157–179: build word boxes from `texts[1:]`, skipping tokens with
fewer than four vertices. -/
def mkWordBoxes (texts : List Tok) : List WordBox :=
  (texts.drop 1).filterMap
    (fun t =>
      if t.verts.length < 4 then none
      else
        some (WordBox.mk t.desc
          (listMinZ (t.verts.map Prod.fst)) (listMaxZ (t.verts.map Prod.fst))
          (listMinZ (t.verts.map Prod.snd)) (listMaxZ (t.verts.map Prod.snd))))

/-- `re.match(r'^\d+[.,]?\d*$', s)` as a Bool. -/
def numToken (s : Str) : Bool :=
  withOptNl
    (fun t =>
      let d := runLen Char.isDigit t
      if d = 0 then false
      else
        match t.drop d with
        | [] => true
        | c :: rest => (c = '.' || c = ',') && rest.all Char.isDigit)
    s

/-- `re.match(r'^\$', s)` as a Bool. -/
def startsDollar (s : Str) : Bool :=
  s.head? == some '$'

/-- Stop words excluded by the spatial payee scan (line 192). -/
def EXCLUDE_WORDS : List Str :=
  (["PAY", "TO", "THE", "ORDER", "OF", "RD", "FOR", "DOLLARS", "DATE"]).map String.data

/-- Python `' '.join(parts)`. -/
def joinSpace : List Str → Str
  | [] => []
  | [x] => x
  | x :: xs => x ++ ' ' :: joinSpace xs

/-- `extract_payee_spatial` (lines 154–212).  The float literal `0.8` is
modelled by the rational `4/5`. -/
def extractPayeeSpatial (texts : List Tok) : Option Str :=
  let word_boxes := mkWordBoxes texts
  let of_boxes := word_boxes.filter (fun wb => pyUpper wb.desc == ("OF").data)
  match of_boxes with
  | [] => none
  | of_box :: _ =>
    let tolerance_y : ℚ := (wbHeight of_box : ℚ) * (4 / 5)
    let payee_words := word_boxes.filter
      (fun wb =>
        decide (|wbCenterY wb - wbCenterY of_box| < tolerance_y) &&
        decide (wb.max_x < of_box.min_x) &&
        !(EXCLUDE_WORDS.contains (pyUpper wb.desc)) &&
        !numToken wb.desc &&
        !startsDollar wb.desc &&
        decide (1 < wb.desc.length))
    if payee_words.isEmpty then none
    else
      let sorted := List.insertionSort (fun a b => a.min_x ≤ b.min_x) payee_words
      let payee_parts := (sorted.drop (sorted.length - 4)).map WordBox.desc
      let payee := cleanPayeeName (pyStrip (joinSpace payee_parts))
      if isValidPayee payee then some payee else none

/-- `extract_payee_name` (extract_payee.py lines 58–151): the four strategies
in priority order, defaulting to the sentinel. -/
def extractPayeeName (fullText : Str) (texts : List Tok) : Str :=
  let lines := linesOf fullText
  match firstSome strat1Line lines with
  | some p => p
  | none =>
    match strat2 lines with
    | some p => p
    | none =>
      match strat3 lines with
      | some p => p
      | none =>
        if !texts.isEmpty && 1 < texts.length then
          match extractPayeeSpatial texts with
          | some p => p
          | none => NOT_FOUND
        else NOT_FOUND

/-! ## `extract_check_number` (extract_payee.py lines 261–321) -/

/-- Strategy 1 (lines 267–270): first of the first 10 lines that is entirely
4–5 digits. -/
def checkStrat1 (lines : List Str) : Option Str :=
  (lines.take 10).find? matchDigits45

/-- A spatial check-number candidate (lines 289–293). -/
structure NumCand where
  number : Str
  max_x : ℤ
  min_y : ℤ
deriving DecidableEq

/-- `max_x = max(v.get("x", 0) for v in vertices)` of a token. -/
def tokMaxX (t : Tok) : ℤ :=
  listMaxZ (t.verts.map Prod.fst)

/-- `min_y = min(v.get("y", 0) for v in vertices)` of a token. -/
def tokMinY (t : Tok) : ℤ :=
  listMinZ (t.verts.map Prod.snd)

/-- Lines 274–293: candidates from `texts[1:]` whose text matches
`^\d{4,5}$` and which have at least four vertices. -/
def checkCands (texts : List Tok) : List NumCand :=
  (texts.drop 1).filterMap
    (fun t =>
      if !matchDigits45 t.desc then none
      else if t.verts.length < 4 then none
      else some (NumCand.mk t.desc (tokMaxX t) (tokMinY t)))

/-- The sort key of line 297: `(min_y, -max_x)` under lexicographic order. -/
def candKey (c : NumCand) : Lex (ℤ × ℤ) :=
  toLex (c.min_y, -c.max_x)

/-- Strategy 2 (lines 273–300): stable sort of the candidates by
`(min_y, -max_x)` ascending, first one wins. -/
def checkStrat2 (texts : List Tok) : Option Str :=
  if !texts.isEmpty && 1 < texts.length then
    match List.insertionSort (fun a b => candKey a ≤ candKey b) (checkCands texts) with
    | [] => none
    | c :: _ => some c.number
  else none

/-- Exactly `k` digits at position `i` followed by optional whitespace and a
case-insensitive literal `DATE`. -/
def dateNumAt (line : Str) (i k : Nat) : Bool :=
  let seg := (line.drop i).take k
  (seg.length = k && seg.all Char.isDigit) &&
    (pyUpper (((line.drop (i + k)).dropWhile pyIsSpace).take 4) == ("DATE").data)

/-- Strategy 3 for one line (lines 303–310): leftmost match of
`(\d{4,5})\s*DATE` (greedy, so 5 digits are preferred over 4 at each start). -/
def checkStrat3Line (line : Str) : Option Str :=
  if containsSub (pyUpper line) (("DATE").data) then
    firstSome
      (fun i =>
        if dateNumAt line i 5 then some ((line.drop i).take 5)
        else if dateNumAt line i 4 then some ((line.drop i).take 4)
        else none)
      (List.range line.length)
  else none

/-- Strategy 3 over all lines. -/
def checkStrat3 (lines : List Str) : Option Str :=
  firstSome checkStrat3Line lines

/-- One candidate match of the MICR pattern starting at position `i`:
a MICR delimiter, a greedy run of zeros (given back one at a time), 4–5
captured digits, and a closing MICR delimiter. -/
def micrAt (line : Str) (i : Nat) : Option Str :=
  match (line.drop i).head? with
  | some c =>
    if c = '⑈' then
      let afterB := line.drop (i + 1)
      let z := runLen (fun ch => ch = '0') afterB
      firstSome
        (fun zc0 =>
          let pos := afterB.drop (z - zc0)
          firstSome
            (fun k =>
              let seg := pos.take k
              if seg.length = k && seg.all Char.isDigit && ((pos.drop k).head? == some '⑈') then
                some seg
              else none)
            [5, 4])
        (List.range (z + 1))
    else none
  | none => none

/-- Strategy 4 (lines 313–319): search the MICR pattern on the last line. -/
def checkStrat4 (lines : List Str) : Option Str :=
  match lines.getLast? with
  | some micr_line => firstSome (fun i => micrAt micr_line i) (List.range micr_line.length)
  | none => none

/-- `extract_check_number` (extract_payee.py lines 261–321). -/
def extractCheckNumber (fullText : Str) (texts : List Tok) : Str :=
  let lines := linesOf fullText
  match checkStrat1 lines with
  | some l => l
  | none =>
    match checkStrat2 texts with
    | some n => n
    | none =>
      match checkStrat3 lines with
      | some n => n
      | none =>
        match checkStrat4 lines with
        | some n => n
        | none => NOT_FOUND

/-! ## Confidence (extract_payee.py lines 324–393) -/

/-- Business-entity suffixes (line 359). -/
def SUFFIXES : List Str :=
  (["INC", "LLC", "L.L.C", "CORP", "CORPORATION", "CO", "CO.", "LTD", "COMPANY"]).map String.data

/-- Line 360: the uppercased payee ends with a suffix, optionally preceded by
a comma and a space. -/
def entitySuffixHit (up : Str) : Bool :=
  SUFFIXES.any (fun suf => suf.isSuffixOf up || (',' :: ' ' :: suf).isSuffixOf up)

/-- `w.upper().strip('.,')` membership in the amount vocabulary (line 384). -/
def wordAmountLike (w : Str) : Bool :=
  AMOUNT_WORDS.contains (pyStripP (fun c => c = '.' || c = ',') (pyUpper w))

/-- `score_payee_quality` (extract_payee.py lines 346–393). -/
def scorePayeeQuality (payee : Str) : ℚ :=
  let s := pyStrip payee
  let up := pyUpper s
  let words := pyWords s
  if words.isEmpty then 0
  else
    let score1 : ℚ := if entitySuffixHit up then 0.45 else 0
    let score2 : ℚ := score1 + (if 2 ≤ words.length then 0.2 else 0)
    let score3 : ℚ := score2 + (if 5 ≤ s.length && s.length ≤ 40 then 0.15 else 0)
    let score4 : ℚ := score3 - (if s.any Char.isDigit then 0.35 else 0)
    let score5 : ℚ := score4 - (if endsCitySt up then 0.5 else 0)
    let amount_like := (words.filter wordAmountLike).length
    let score6 : ℚ := score5 - (if ((amount_like : ℚ) / (words.length : ℚ) ≥ 0.5) then 0.5 else 0)
    let score7 : ℚ := score6 -
      (if up = s && s.any Char.isUpper && !s.any Char.isLower then 0.05 else 0)
    max 0 (min 1 score7)

/-- `calculate_confidence` (extract_payee.py lines 324–343). -/
def calculateConfidence (payee_name check_number fullText : Str) : ℚ :=
  let c0 : ℚ := 0.2
  let c1 : ℚ :=
    if !payee_name.isEmpty && payee_name ≠ NOT_FOUND then
      c0 + 0.6 * scorePayeeQuality payee_name
    else c0
  let c2 : ℚ :=
    if !check_number.isEmpty && check_number ≠ NOT_FOUND then c1 + 0.18 else c1
  max 0 (min c2 0.98)

/-! ## Statement parser (app/parsers/statement_parser.py)

`datetime.strptime` (a parse attempt for one value and one format, `none` on
`ValueError`) and Python `float(...)` (`none` on `ValueError`) are standard
library collaborators and appear as parameters `strptime` / `pyFloat`;
datetimes are abstracted by `ℤ`.  The column-mapping step
`_map_columns_with_llm` (remote classifier with range validation, falling
back to `_fallback_mapping` on any failure) appears as the parameter
`colMap`; `fallbackMapping` below is the embedded fallback instance. -/

/-- The date formats of statement_parser.py lines 14–17. -/
def DATE_FORMATS : List Str :=
  (["%m/%d/%Y", "%Y-%m-%d", "%m-%d-%Y", "%d/%m/%Y", "%Y/%m/%d",
    "%b %d, %Y", "%d %b %Y", "%m/%d/%y", "%d/%m/%y"]).map String.data

/-- One column of a section: index, header name, first (up to) three sample
values (statement_parser.py lines 23–40). -/
structure ColumnInfo where
  idx : Nat
  name : Str
  samples : List Str
deriving DecidableEq

/-- A field mapping: role to optional column index (after validation the
Python dict always holds ints in range or `None`). -/
structure FieldMapping where
  check_number : Option Nat
  date : Option Nat
  amount : Option Nat
deriving DecidableEq

/-- A tabular section: header row and data rows. -/
structure Sectn where
  header : List Str
  rows : List (List Str)
deriving DecidableEq

/-- `_prepare_column_analysis` (lines 23–40): sample the first three data
rows of each column. -/
def prepareColumnAnalysis (sec : Sectn) : List ColumnInfo :=
  (List.range sec.header.length).map
    (fun colIdx =>
      ColumnInfo.mk colIdx ((sec.header.drop colIdx).headD [])
        ((sec.rows.take 3).map (fun row => (row.drop colIdx).headD [])))

/-- `_looks_like_check_number` (lines 181–184). -/
def looksLikeCheckNumber (value : Str) : Bool :=
  if value.isEmpty || value.length < 2 then false
  else
    value.any Char.isAlphanum &&
      !((["nan", "none", "true", "false"]).map String.data).contains (pyLower value)

/-- `_looks_like_date` (lines 186–196), parameterized by `strptime`. -/
def looksLikeDate (strptime : Str → Str → Option ℤ) (value : Str) : Bool :=
  if value.isEmpty || value.length < 6 then false
  else DATE_FORMATS.any (fun fmt => (strptime value fmt).isSome)

/-- Identifier-column name keywords (line 116). -/
def CHECK_COL_KEYWORDS : List Str :=
  (["check", "chk", "slip", "trans", "reference", "ref"]).map String.data

/-- Date-column name keywords (line 123). -/
def DATE_COL_KEYWORDS : List Str :=
  (["date", "post", "trans"]).map String.data

/-- Amount-column name keywords (line 130). -/
def AMT_COL_KEYWORDS : List Str :=
  (["amount", "debit", "payment", "withdrawal"]).map String.data

/-- `sample.replace(',', '').replace('$', '').strip()` (lines 139 and 236). -/
def cleanAmountStr (s : Str) : Str :=
  pyStrip ((s.filter (fun c => c ≠ ',')).filter (fun c => c ≠ '$'))

/-- Identifier score of one column (lines 115–120). -/
def checkColScore (col : ColumnInfo) : ℚ :=
  (if CHECK_COL_KEYWORDS.any (fun kw => containsSub (pyLower col.name) kw) then 50 else 0) +
    (if col.samples.any looksLikeCheckNumber then 30 else 0)

/-- Date score of one column (lines 122–127). -/
def dateColScore (strptime : Str → Str → Option ℤ) (col : ColumnInfo) : ℚ :=
  (if DATE_COL_KEYWORDS.any (fun kw => containsSub (pyLower col.name) kw) then 50 else 0) +
    (if col.samples.any (looksLikeDate strptime) then 40 else 0)

/-- Amount score of one column (lines 129–164): name keywords plus numeric
sample statistics `(total, valid, positive, zero)`. -/
def amountColScore (pyFloat : Str → Option ℚ) (col : ColumnInfo) : ℚ :=
  let base : ℚ :=
    if AMT_COL_KEYWORDS.any (fun kw => containsSub (pyLower col.name) kw) then 30 else 0
  let stats :=
    col.samples.foldl
      (fun (st : ℚ × Nat × Nat × Nat) sample =>
        let clean := cleanAmountStr sample
        if !clean.isEmpty && !((["nan", "", "none"]).map String.data).contains (pyLower clean) then
          match pyFloat clean with
          | some val =>
            if 0 < val then (st.1 + val, st.2.1 + 1, st.2.2.1 + 1, st.2.2.2)
            else if val = 0 then (st.1, st.2.1 + 1, st.2.2.1, st.2.2.2 + 1)
            else (st.1, st.2.1 + 1, st.2.2.1, st.2.2.2)
          | none => st
        else st)
      ((0 : ℚ), (0 : Nat), (0 : Nat), (0 : Nat))
  let total := stats.1
  let valid := stats.2.1
  let positive := stats.2.2.1
  let zeroCnt := stats.2.2.2
  if 0 < valid then
    let s1 := base + (valid : ℚ) * 10
    let s2 := s1 + ((positive : ℚ) / (valid : ℚ)) * 40
    let s3 := s2 - ((zeroCnt : ℚ) / (valid : ℚ)) * 20
    if 0 < positive then
      let avg := total / (positive : ℚ)
      s3 + (if 1 < avg then 15 else 0) + (if 50 < avg then 10 else 0)
    else s3
  else base

/-- The `(index, score)` rows the fallback builds per role (in column order). -/
def roleScores (f : ColumnInfo → ℚ) (info : List ColumnInfo) : List (Nat × ℚ) :=
  info.map (fun col => (col.idx, f col))

/-- `scores.sort(key=lambda x: x[1], reverse=True); if scores[0][1] > threshold`
(lines 166–176): stable descending sort by score, head wins if above the
threshold.  (On an empty column list Python would raise `IndexError`; that
case is unreachable because `_map_columns_with_llm` returns early on empty
input, and is mapped to `none` here.) -/
def selectRole (threshold : ℚ) (scores : List (Nat × ℚ)) : Option Nat :=
  match List.insertionSort (fun a b => b.2 ≤ a.2) scores with
  | [] => none
  | top :: _ => if threshold < top.2 then some top.1 else none

/-- `_fallback_mapping` (lines 103–179). -/
def fallbackMapping (strptime : Str → Str → Option ℤ) (pyFloat : Str → Option ℚ)
    (info : List ColumnInfo) : FieldMapping :=
  FieldMapping.mk
    (selectRole 30 (roleScores checkColScore info))
    (selectRole 40 (roleScores (dateColScore strptime) info))
    (selectRole 20 (roleScores (amountColScore pyFloat) info))

/-- A check transaction assembled by the statement path (app/models.py;
`payee`, `confidence` and `flagged_for_review` keep their defaults throughout
this path and are omitted). -/
structure CheckTransaction where
  check_number : Str
  date : Option ℤ
  amount : Option ℚ
deriving DecidableEq

/-- Placeholder identifiers rejected at line 220. -/
def PLACEHOLDERS : List Str :=
  (["nan", "none", "", "true", "false"]).map String.data

/-- Placeholders for date and amount cells (lines 226 and 237). -/
def NA_PLACEHOLDERS : List Str :=
  (["nan", "none", ""]).map String.data

/-- One iteration of the row loop of `parse_csv_section` (lines 217–251).
A `none` at a cell access models the `IndexError` of an out-of-range
`df.iloc`, which the surrounding `except` turns into a skipped row. -/
def extractRow (strptime : Str → Str → Option ℤ) (pyFloat : Str → Option ℚ)
    (ci : Nat) (di ai : Option Nat) (row : List Str) : Option CheckTransaction :=
  match (row.drop ci).head? with
  | none => none
  | some cell =>
    let check_number := pyStrip cell
    if check_number.isEmpty || PLACEHOLDERS.contains (pyLower check_number) then none
    else
      match
        (match di with
         | none => some none
         | some dcol =>
           match (row.drop dcol).head? with
           | none => none
           | some dcell =>
             let date_str := pyStrip dcell
             if !date_str.isEmpty && !NA_PLACEHOLDERS.contains (pyLower date_str) then
               some (firstSome (fun fmt => strptime date_str fmt) DATE_FORMATS)
             else some none) with
      | none => none
      | some date_obj =>
        match
          (match ai with
           | none => some none
           | some acol =>
             match (row.drop acol).head? with
             | none => none
             | some acell =>
               let amount_str := cleanAmountStr acell
               if !amount_str.isEmpty && !NA_PLACEHOLDERS.contains (pyLower amount_str) then
                 some (pyFloat amount_str)
               else some none) with
        | none => none
        | some amount => some (CheckTransaction.mk check_number date_obj amount)

/-- `parse_csv_section` (lines 198–253), with the column-mapping collaborator
as parameter `colMap`. -/
def parseCsvSection (colMap : List ColumnInfo → FieldMapping)
    (strptime : Str → Str → Option ℤ) (pyFloat : Str → Option ℚ)
    (sec : Sectn) : List CheckTransaction :=
  if sec.rows.isEmpty then []
  else
    let column_info := prepareColumnAnalysis sec
    let col_map := colMap column_info
    match col_map.check_number with
    | none => []
    | some check_col_idx =>
      sec.rows.filterMap (extractRow strptime pyFloat check_col_idx col_map.date col_map.amount)

/-- A row is a blank separator when every cell strips to the empty string
(line 270). -/
def isBlankRow (row : List Str) : Bool :=
  row.all (fun v => (pyStrip v).isEmpty)

/-- The section decomposition of `parse_statement` (lines 266–280): split at
blank rows, a buffer of more than one row becomes a section (header = first
buffered row). -/
def splitSections (grid : List (List Str)) : List Sectn :=
  let step := fun (st : List Sectn × List (List Str)) row =>
    if isBlankRow row then
      if 1 < st.2.length then (st.1 ++ [Sectn.mk (st.2.headD []) (st.2.drop 1)], [])
      else (st.1, [])
    else (st.1, st.2 ++ [row])
  let fin := grid.foldl step ([], [])
  if 1 < fin.2.length then fin.1 ++ [Sectn.mk (fin.2.headD []) (fin.2.drop 1)] else fin.1

/-- The dedup step of `parse_statement` (lines 295–298): skip a record whose
identifier was already seen, otherwise keep it and mark it seen. -/
def dedupStep (st : List CheckTransaction × List Str) (check : CheckTransaction) :
    List CheckTransaction × List Str :=
  if st.2.contains check.check_number then st
  else (st.1 ++ [check], st.2 ++ [check.check_number])

/-- `parse_statement` (lines 255–313) on an in-memory grid of string cells
(the CSV reading and the `_parsed.csv` export are I/O outside the core). -/
def parseStatement (colMap : List ColumnInfo → FieldMapping)
    (strptime : Str → Str → Option ℤ) (pyFloat : Str → Option ℚ)
    (grid : List (List Str)) : List CheckTransaction :=
  let sections := splitSections grid
  if sections.isEmpty then []
  else
    let fin :=
      sections.foldl
        (fun st sec =>
          if sec.rows.isEmpty then st
          else (parseCsvSection colMap strptime pyFloat sec).foldl dedupStep st)
        ([], [])
    List.insertionSort (fun a b => a.check_number ≤ b.check_number) fin.1

/-- Every row of the grid has the same number of cells — what `pd.read_csv`
delivers to `parse_statement` (ingestion boundary of the spec, §6). -/
def isRectGrid (grid : List (List Str)) : Bool :=
  match grid with
  | [] => true
  | r :: rs => rs.all (fun row => row.length = r.length)

/-! ## The alternative OCR path (app/ocr/ocr.py lines 36–99) -/

/-- Python exceptions observable in the embedded fragment. -/
inductive PyErr where
  | valueError : PyErr
  | unboundLocalError : PyErr
deriving DecidableEq

/-- The phrase candidates of ocr.py lines 64–67. -/
def OCR_PHRASE_CANDIDATES : List Str :=
  (["PAY TO THE ORDER OF", "PAY TO THE OF", "PAY TO THE",
    "TO THE ORDER OF", "TO THE OF", "ORDER OF", "TO THE", "PAY"]).map String.data

/-- ocr.py lines 41–99, the spatial payee step of the alternative
`extract_check_info`: build word boxes from `texts[1:]` (≥ 4 vertices),
collect `phrase_boxes` (boxes whose text equals a phrase candidate,
case-insensitively).  Line 74–76 reads
`if phrase_boxes: phrase_box = max(...); phrase_box = None`, so when
`phrase_boxes` is non-empty `phrase_box` is immediately overwritten with
`None` and the `if phrase_box:` body (lines 78–99) is dead code, leaving
`payee_name` at `"Not found"`; when `phrase_boxes` is empty the local
`phrase_box` was never assigned and line 78 raises `UnboundLocalError`. -/
def ocrPayeeStep (texts : List Tok) : Except PyErr Str :=
  if texts.isEmpty then Except.ok NOT_FOUND
  else
    let word_boxes := mkWordBoxes texts
    let phrase_boxes :=
      OCR_PHRASE_CANDIDATES.foldl
        (fun acc cand => acc ++ word_boxes.filter (fun wb => pyUpper wb.desc == pyUpper cand))
        []
    if phrase_boxes.isEmpty then Except.error PyErr.unboundLocalError
    else Except.ok NOT_FOUND

/-- ocr.py lines 36–41 plus the spatial payee step: `extract_check_info`
raises `ValueError` when the OCR provider returns empty full text, and then
runs the payee step of lines 41–99. -/
def ocrExtractPayeePhase (fullText : Str) (texts : List Tok) : Except PyErr Str :=
  if fullText.isEmpty then Except.error PyErr.valueError
  else ocrPayeeStep texts

/-! ## Derived definitions used by the verification -/

/-- The dedup loop of `parse_statement` as a standalone recursion: keep a
record iff its identifier is not in `seen`, extending `seen` as the loop does. -/
def dedupGo (seen : List Str) : List CheckTransaction → List CheckTransaction
  | [] => []
  | c :: cs =>
    if seen.contains c.check_number then dedupGo seen cs
    else c :: dedupGo (seen ++ [c.check_number]) cs

/-- `c` is the first record of `l` carrying its identifier. -/
def FirstOccIn (l : List CheckTransaction) (c : CheckTransaction) : Prop :=
  ∃ k : Nat, l[k]? = some c ∧
    ∀ j : Nat, j < k → ∀ d : CheckTransaction, l[j]? = some d → d.check_number ≠ c.check_number

/-- All records produced by the sections of a statement, in document order
(before deduplication and sorting). -/
def allRecords (colMap : List ColumnInfo → FieldMapping)
    (strptime : Str → Str → Option ℤ) (pyFloat : Str → Option ℚ)
    (grid : List (List Str)) : List CheckTransaction :=
  ((splitSections grid).map (parseCsvSection colMap strptime pyFloat)).flatten

/-- `n`-fold application of `clean_payee_name`. -/
def cleanN : Nat → Str → Str
  | 0, s => s
  | n + 1, s => cleanN n (cleanPayeeName s)

/-- Cleaning iterated as many times as the string is long: a fixed point of
`clean_payee_name` (cleaning strictly shortens any string it changes). -/
def cleanIter (s : Str) : Str :=
  cleanN s.length s

/-- A `strptime` collaborator that never parses (used in concrete witnesses). -/
def stNone : Str → Str → Option ℤ := fun _ _ => none

/-- A `float` collaborator that never parses (used in concrete witnesses). -/
def pfNone : Str → Option ℚ := fun _ => none

/-- The fallback classifier as the column-mapping collaborator. -/
def cmFallback : List ColumnInfo → FieldMapping :=
  fallbackMapping stNone pfNone

/-- The scenario line of C8. -/
def acmeFullText : Str := ("PAY TO THE ORDER OF ACME SUPPLY CO.").data

/-- A rectangular vertex square used to build concrete witness tokens. -/
def sqVerts (x y : ℤ) : List (ℤ × ℤ) :=
  [(x, y), (x + 10, y), (x + 10, y + 5), (x, y + 5)]

/-- Concrete OCR full text for the C7 witness (no digit lines). -/
def ftW : Str := ("NO DIGITS HERE").data

/-- Concrete token list for the C7 witness: four 5- or 4-digit tokens at
various positions after the full-text token. -/
def toksW : List Tok :=
  [Tok.mk (("NO DIGITS HERE").data) (sqVerts 0 0),
   Tok.mk (("11111").data) (sqVerts 50 20),
   Tok.mk (("22222").data) (sqVerts 90 10),
   Tok.mk (("33333").data) (sqVerts 40 10),
   Tok.mk (("9999").data) (sqVerts 5 30)]

/-- Concrete one-section grid for the C1 witness. -/
def gridW1 : List (List Str) :=
  [[("Check").data], [("1001").data], [("9").data], [("10").data]]

/-- Concrete two-section grid sharing identifier `"2050"` for the C2 witness. -/
def gridW2 : List (List Str) :=
  [[("Check").data], [("2050").data], [("").data], [("Chk").data], [("2050").data]]

/-! ## Head of a stable insertion sort -/

/-- The head the insertion sort will produce: fold the list from the right,
keeping `x` over `m` exactly when `r x m` holds (so on ties the earlier
element wins, matching the stability of Python's sort). -/
def firstExtR (r : α → α → Prop) [DecidableRel r] : List α → Option α
  | [] => none
  | x :: xs =>
    some
      (match firstExtR r xs with
       | none => x
       | some m => if r x m then x else m)

theorem head?_orderedInsert (r : α → α → Prop) [DecidableRel r] (a : α) (l : List α) :
    (List.orderedInsert r a l).head? =
      some (match l.head? with
            | none => a
            | some b => if r a b then a else b) := by
  cases l with
  | nil => rfl
  | cons b t =>
    by_cases h : r a b <;> simp [List.orderedInsert, h]

theorem head?_insertionSort (r : α → α → Prop) [DecidableRel r] (l : List α) :
    (List.insertionSort r l).head? = firstExtR r l := by
  induction l with
  | nil => rfl
  | cons x xs ih =>
    rw [List.insertionSort, head?_orderedInsert, firstExtR, ← ih]

theorem firstExtR_mem (r : α → α → Prop) [DecidableRel r] {l : List α} {m : α}
    (h : firstExtR r l = some m) : m ∈ l := by
  induction l generalizing m with
  | nil => simp [firstExtR] at h
  | cons x xs ih =>
    rw [firstExtR] at h
    simp only [Option.some.injEq] at h
    cases hfe : firstExtR r xs with
    | none =>
      rw [hfe] at h
      dsimp only at h
      exact h ▸ List.mem_cons_self x xs
    | some m' =>
      rw [hfe] at h
      dsimp only at h
      by_cases hr : r x m'
      · rw [if_pos hr] at h
        exact h ▸ List.mem_cons_self x xs
      · rw [if_neg hr] at h
        exact h ▸ List.mem_cons_of_mem x (ih hfe)

theorem firstExtR_min (r : α → α → Prop) [DecidableRel r]
    (htot : ∀ a b, r a b ∨ r b a) (htrans : ∀ a b c, r a b → r b c → r a c)
    {l : List α} {m : α} (h : firstExtR r l = some m) : ∀ y ∈ l, r m y := by
  have hrefl : ∀ a, r a a := fun a => (htot a a).elim id id
  induction l generalizing m with
  | nil => simp [firstExtR] at h
  | cons x xs ih =>
    rw [firstExtR] at h
    simp only [Option.some.injEq] at h
    cases hfe : firstExtR r xs with
    | none =>
      rw [hfe] at h
      dsimp only at h
      subst h
      intro y hy
      rcases List.mem_cons.1 hy with h1 | h1
      · exact h1 ▸ hrefl x
      · cases xs with
        | nil => simp at h1
        | cons z zs => simp [firstExtR] at hfe
    | some m' =>
      rw [hfe] at h
      dsimp only at h
      intro y hy
      rcases List.mem_cons.1 hy with h1 | h1
      · by_cases hr : r x m'
        · rw [if_pos hr] at h
          rw [← h, h1]
          exact hrefl x
        · rw [if_neg hr] at h
          rw [← h, h1]
          exact (htot x m').resolve_left hr
      · by_cases hr : r x m'
        · rw [if_pos hr] at h
          rw [← h]
          exact htrans x m' y hr (ih hfe y h1)
        · rw [if_neg hr] at h
          rw [← h]
          exact ih hfe y h1

theorem firstExtR_split (r : α → α → Prop) [DecidableRel r]
    {l : List α} {m : α} (h : firstExtR r l = some m) :
    ∃ l1 l2, l = l1 ++ m :: l2 ∧ ∀ y ∈ l1, ¬ r y m := by
  induction l generalizing m with
  | nil => simp [firstExtR] at h
  | cons x xs ih =>
    rw [firstExtR] at h
    simp only [Option.some.injEq] at h
    cases hfe : firstExtR r xs with
    | none =>
      rw [hfe] at h
      dsimp only at h
      exact ⟨[], xs, by simp [h], by simp⟩
    | some m' =>
      rw [hfe] at h
      dsimp only at h
      by_cases hr : r x m'
      · rw [if_pos hr] at h
        exact ⟨[], xs, by simp [h], by simp⟩
      · rw [if_neg hr] at h
        subst h
        obtain ⟨l1, l2, heq, hl1⟩ := ih hfe
        refine ⟨x :: l1, l2, by simp [heq], ?_⟩
        intro y hy
        rcases List.mem_cons.1 hy with h1 | h1
        · exact h1 ▸ hr
        · exact hl1 y h1

/-! ## Properties of `selectRole` -/

theorem selectRole_some {th : ℚ} {scores : List (Nat × ℚ)} {i : Nat}
    (h : selectRole th scores = some i) :
    ∃ e, e ∈ scores ∧ e.1 = i ∧ th < e.2 ∧ (∀ y ∈ scores, y.2 ≤ e.2) ∧
      ∃ l1 l2, scores = l1 ++ e :: l2 ∧ ∀ y ∈ l1, y.2 < e.2 := by
  unfold selectRole at h
  cases hs : List.insertionSort (fun a b : Nat × ℚ => b.2 ≤ a.2) scores with
  | nil => rw [hs] at h; simp at h
  | cons top rest =>
    rw [hs] at h
    dsimp only at h
    by_cases hth : th < top.2
    · rw [if_pos hth] at h
      simp only [Option.some.injEq] at h
      have hfe : firstExtR (fun a b : Nat × ℚ => b.2 ≤ a.2) scores = some top := by
        rw [← head?_insertionSort, hs]
        rfl
      have hmem := firstExtR_mem _ hfe
      have hmin := firstExtR_min (fun a b : Nat × ℚ => b.2 ≤ a.2)
        (fun a b => le_total b.2 a.2) (fun _ _ _ hab hbc => le_trans hbc hab) hfe
      obtain ⟨l1, l2, heq, hl1⟩ := firstExtR_split _ hfe
      exact ⟨top, hmem, h, hth, fun y hy => hmin y hy, l1, l2, heq,
        fun y hy => lt_of_not_le (hl1 y hy)⟩
    · rw [if_neg hth] at h
      simp at h

theorem selectRole_none {th : ℚ} {scores : List (Nat × ℚ)}
    (h : ∀ e ∈ scores, e.2 ≤ th) : selectRole th scores = none := by
  unfold selectRole
  cases hs : List.insertionSort (fun a b : Nat × ℚ => b.2 ≤ a.2) scores with
  | nil => rfl
  | cons top rest =>
    have htop : top ∈ scores := by
      have hmem : top ∈ List.insertionSort (fun a b : Nat × ℚ => b.2 ≤ a.2) scores := by
        rw [hs]
        exact List.mem_cons_self top rest
      exact (List.perm_insertionSort _ scores).mem_iff.1 hmem
    dsimp only
    rw [if_neg (not_lt.2 (h top htop))]

theorem roleScores_mem {f : ColumnInfo → ℚ} {info : List ColumnInfo} {e : Nat × ℚ}
    (h : e ∈ roleScores f info) : ∃ c ∈ info, c.idx = e.1 ∧ f c = e.2 := by
  obtain ⟨c, hc, hce⟩ := List.mem_map.1 h
  exact ⟨c, hc, by rw [← hce], by rw [← hce]⟩

theorem fallback_role_spec {th : ℚ} {f : ColumnInfo → ℚ} {info : List ColumnInfo} {i : Nat}
    (hidx : ∀ (k : Nat) (c : ColumnInfo), info[k]? = some c → c.idx = k)
    (hsel : selectRole th (roleScores f info) = some i) :
    ∃ c, info[i]? = some c ∧ th < f c ∧ (∀ d ∈ info, f d ≤ f c) ∧
      ∀ j, j < i → ∀ d, info[j]? = some d → f d < f c := by
  obtain ⟨e, hmem, hei, hth, hmax, l1, l2, heq, hl1⟩ := selectRole_some hsel
  have hk : (roleScores f info)[l1.length]? = some e := by
    rw [heq, List.getElem?_append_right le_rfl, Nat.sub_self]
    simp
  have hkinfo : (info.map (fun col => (col.idx, f col)))[l1.length]? = some e := hk
  rw [List.getElem?_map] at hkinfo
  cases hc : info[l1.length]? with
  | none => rw [hc] at hkinfo; simp at hkinfo
  | some c =>
    rw [hc] at hkinfo
    simp only [Option.map_some', Option.some.injEq] at hkinfo
    have hcidx : c.idx = l1.length := hidx _ _ hc
    have hie : i = l1.length := by
      rw [← hei, ← hkinfo, hcidx]
    refine ⟨c, by rw [hie]; exact hc, ?_, ?_, ?_⟩
    · rw [← hkinfo] at hth
      exact hth
    · intro d hd
      have : (d.idx, f d) ∈ roleScores f info := List.mem_map.2 ⟨d, hd, rfl⟩
      have := hmax _ this
      rw [← hkinfo] at this
      exact this
    · intro j hj d hd
      have hjk : j < l1.length := hie ▸ hj
      have hscj : (roleScores f info)[j]? = some (d.idx, f d) := by
        show (info.map (fun col => (col.idx, f col)))[j]? = some (d.idx, f d)
        rw [List.getElem?_map, hd]
        rfl
      have hmem1 : (d.idx, f d) ∈ l1 := by
        have hthis : (l1 ++ e :: l2)[j]? = some (d.idx, f d) := by rw [← heq]; exact hscj
        rw [List.getElem?_append, if_pos hjk] at hthis
        exact List.getElem?_mem hthis
      have := hl1 _ hmem1
      rw [← hkinfo] at this
      exact this

theorem prepareColumnAnalysis_idx (sec : Sectn) :
    ∀ (k : Nat) (c : ColumnInfo), (prepareColumnAnalysis sec)[k]? = some c → c.idx = k := by
  intro k c h
  unfold prepareColumnAnalysis at h
  rw [List.getElem?_map] at h
  cases hr : (List.range sec.header.length)[k]? with
  | none => rw [hr] at h; simp at h
  | some v =>
    rw [hr] at h
    simp only [Option.map_some', Option.some.injEq] at h
    have hk : k < sec.header.length := by
      have hlt := hr
      rw [List.getElem?_eq_some] at hlt
      obtain ⟨hlt, _⟩ := hlt
      simpa using hlt
    rw [List.getElem?_range hk] at hr
    injection hr with hv
    rw [← h, hv]

/-- C5: in the fallback column classifier, the identifier role maps to a
column index only when that column's identifier score is the section maximum
and strictly exceeds 30; whenever the maximum identifier score is ≤ 30 the
identifier field of the FieldMapping is null. -/
theorem fallback_identifier_threshold (strptime : Str → Str → Option ℤ)
    (pyFloat : Str → Option ℚ) (info : List ColumnInfo) :
    ((∀ c ∈ info, checkColScore c ≤ 30) →
      (fallbackMapping strptime pyFloat info).check_number = none) ∧
    (∀ i, (fallbackMapping strptime pyFloat info).check_number = some i →
      ∃ c ∈ info, c.idx = i ∧ 30 < checkColScore c ∧
        ∀ d ∈ info, checkColScore d ≤ checkColScore c) := by
  constructor
  · intro hall
    show selectRole 30 (roleScores checkColScore info) = none
    apply selectRole_none
    intro e he
    obtain ⟨c, hc, _, hfc⟩ := roleScores_mem he
    rw [← hfc]
    exact hall c hc
  · intro i hi
    obtain ⟨e, hmem, hei, hth, hmax, _⟩ := selectRole_some hi
    obtain ⟨c, hc, hcidx, hfc⟩ := roleScores_mem hmem
    refine ⟨c, hc, by rw [hcidx, hei], by rw [hfc]; exact hth, ?_⟩
    intro d hd
    have hds : (d.idx, checkColScore d) ∈ roleScores checkColScore info :=
      List.mem_map.2 ⟨d, hd, rfl⟩
    have := hmax _ hds
    rw [hfc]
    exact this

/-- Witness for C5: a single column named `"x"` with no samples scores 0 ≤ 30,
so the identifier mapping is null. -/
theorem fallback_identifier_threshold_witness :
    (∀ c ∈ [ColumnInfo.mk 0 (("x").data) []], checkColScore c ≤ 30) ∧
    (fallbackMapping stNone pfNone [ColumnInfo.mk 0 (("x").data) []]).check_number = none := by
  have hall : ∀ c ∈ [ColumnInfo.mk 0 (("x").data) []], checkColScore c ≤ 30 := by
    intro c hc
    rw [List.mem_singleton] at hc
    subst hc
    have h1 : CHECK_COL_KEYWORDS.any
        (fun kw => containsSub (pyLower (("x").data)) kw) = false := by decide
    have h2 : ([] : List Str).any looksLikeCheckNumber = false := rfl
    rw [checkColScore]
    rw [h1, h2]
    norm_num
  exact ⟨hall, (fallback_identifier_threshold stNone pfNone _).1 hall⟩

/-- C6: in the fallback column classifier, for each role, when the mapping
selects column `i` of a section's column analysis, that column's score is the
maximum and every column of lower index scores strictly less (the stable
descending sort preserves original column order among ties, so the lowest
index wins). -/
theorem fallback_tiebreak_lowest_index (strptime : Str → Str → Option ℤ)
    (pyFloat : Str → Option ℚ) (sec : Sectn) :
    (∀ i, (fallbackMapping strptime pyFloat (prepareColumnAnalysis sec)).check_number = some i →
      ∃ c, (prepareColumnAnalysis sec)[i]? = some c ∧
        (∀ d ∈ prepareColumnAnalysis sec, checkColScore d ≤ checkColScore c) ∧
        ∀ j, j < i → ∀ d, (prepareColumnAnalysis sec)[j]? = some d →
          checkColScore d < checkColScore c) ∧
    (∀ i, (fallbackMapping strptime pyFloat (prepareColumnAnalysis sec)).date = some i →
      ∃ c, (prepareColumnAnalysis sec)[i]? = some c ∧
        (∀ d ∈ prepareColumnAnalysis sec, dateColScore strptime d ≤ dateColScore strptime c) ∧
        ∀ j, j < i → ∀ d, (prepareColumnAnalysis sec)[j]? = some d →
          dateColScore strptime d < dateColScore strptime c) ∧
    (∀ i, (fallbackMapping strptime pyFloat (prepareColumnAnalysis sec)).amount = some i →
      ∃ c, (prepareColumnAnalysis sec)[i]? = some c ∧
        (∀ d ∈ prepareColumnAnalysis sec, amountColScore pyFloat d ≤ amountColScore pyFloat c) ∧
        ∀ j, j < i → ∀ d, (prepareColumnAnalysis sec)[j]? = some d →
          amountColScore pyFloat d < amountColScore pyFloat c) := by
  refine ⟨?_, ?_, ?_⟩ <;> intro i hi <;>
    obtain ⟨c, h1, _, h3, h4⟩ := fallback_role_spec (prepareColumnAnalysis_idx sec) hi <;>
    exact ⟨c, h1, h3, h4⟩

/-- Witness for C6: a one-column section named `"check"` with sample `"ab"`
maps the identifier role to index 0, whose score is maximal and which has no
column of lower index. -/
theorem fallback_tiebreak_lowest_index_witness :
    ((fallbackMapping stNone pfNone
        (prepareColumnAnalysis (Sectn.mk [("check").data] [[("ab").data]]))).check_number =
      some 0) ∧
    (∃ c, (prepareColumnAnalysis (Sectn.mk [("check").data] [[("ab").data]]))[0]? = some c ∧
      (∀ d ∈ prepareColumnAnalysis (Sectn.mk [("check").data] [[("ab").data]]),
        checkColScore d ≤ checkColScore c) ∧
      ∀ j, j < 0 → ∀ d,
        (prepareColumnAnalysis (Sectn.mk [("check").data] [[("ab").data]]))[j]? = some d →
          checkColScore d < checkColScore c) := by
  have hprep : prepareColumnAnalysis (Sectn.mk [("check").data] [[("ab").data]]) =
      [ColumnInfo.mk 0 (("check").data) [("ab").data]] := by decide
  have hscore : checkColScore (ColumnInfo.mk 0 (("check").data) [("ab").data]) = 80 := by
    have h1 : CHECK_COL_KEYWORDS.any
        (fun kw => containsSub (pyLower (("check").data)) kw) = true := by decide
    have h2 : ([("ab").data] : List Str).any looksLikeCheckNumber = true := by decide
    rw [checkColScore, h1, h2]
    norm_num
  have hmap : (fallbackMapping stNone pfNone
      (prepareColumnAnalysis (Sectn.mk [("check").data] [[("ab").data]]))).check_number =
        some 0 := by
    rw [hprep]
    show selectRole 30 (roleScores checkColScore [ColumnInfo.mk 0 (("check").data) [("ab").data]]) =
      some 0
    rw [roleScores]
    simp only [List.map_cons, List.map_nil]
    rw [hscore]
    rw [selectRole]
    norm_num [List.insertionSort, List.orderedInsert]
  exact ⟨hmap, (fallback_tiebreak_lowest_index stNone pfNone _).1 0 hmap⟩

/-- Membership of a matching token's candidate in `checkCands`. -/
theorem checkCands_mem {texts : List Tok} {u : Tok}
    (hverts : ∀ t ∈ texts.drop 1, 4 ≤ t.verts.length)
    (hu : u ∈ texts.drop 1) (hm : matchDigits45 u.desc = true) :
    NumCand.mk u.desc (tokMaxX u) (tokMinY u) ∈ checkCands texts := by
  refine List.mem_filterMap.2 ⟨u, hu, ?_⟩
  rw [hm]
  simp [Nat.not_lt.2 (hverts u hu)]

/-- C7: when no line among the first 10 non-empty trimmed lines is entirely
4–5 digits and the token list has spatial candidates, the check-number
extractor returns the text of a 4–5-digit token of `texts[1:]` with the
smallest `min_y`, ties broken by the largest `max_x`. -/
theorem spatial_check_number_topmost (fullText : Str) (texts : List Tok)
    (h1 : ∀ l ∈ (linesOf fullText).take 10, matchDigits45 l = false)
    (hlen : 1 < texts.length)
    (hverts : ∀ t ∈ texts.drop 1, 4 ≤ t.verts.length)
    (hex : ∃ t ∈ texts.drop 1, matchDigits45 t.desc = true) :
    ∃ t ∈ texts.drop 1, matchDigits45 t.desc = true ∧
      extractCheckNumber fullText texts = t.desc ∧
      (∀ u ∈ texts.drop 1, matchDigits45 u.desc = true → tokMinY t ≤ tokMinY u) ∧
      (∀ u ∈ texts.drop 1, matchDigits45 u.desc = true → tokMinY u = tokMinY t →
        tokMaxX u ≤ tokMaxX t) := by
  have hS1 : checkStrat1 (linesOf fullText) = none := by
    rw [checkStrat1, List.find?_eq_none]
    intro l hl
    rw [h1 l hl]
    exact Bool.false_ne_true
  have hne : texts ≠ [] := List.length_pos.1 (lt_trans zero_lt_one hlen)
  have hcond : (!texts.isEmpty && decide (1 < texts.length)) = true := by
    simp [List.isEmpty_iff, hne, hlen]
  obtain ⟨t0, ht0, hm0⟩ := hex
  have hcne : checkCands texts ≠ [] := by
    intro hnil
    have := checkCands_mem hverts ht0 hm0
    rw [hnil] at this
    simp at this
  cases hs : List.insertionSort (fun a b => candKey a ≤ candKey b) (checkCands texts) with
  | nil =>
    have hp := List.perm_insertionSort (fun a b : NumCand => candKey a ≤ candKey b)
      (checkCands texts)
    rw [hs] at hp
    exact absurd hp.symm.eq_nil hcne
  | cons top rest =>
    have hfe : firstExtR (fun a b : NumCand => candKey a ≤ candKey b) (checkCands texts) =
        some top := by
      rw [← head?_insertionSort, hs]
      rfl
    have hcs2 : checkStrat2 texts = some top.number := by
      rw [checkStrat2, if_pos hcond, hs]
    have hres : extractCheckNumber fullText texts = top.number := by
      rw [extractCheckNumber]
      rw [hS1, hcs2]
    have hmin := firstExtR_min (fun a b : NumCand => candKey a ≤ candKey b)
      (fun a b => le_total _ _) (fun _ _ _ hab hbc => le_trans hab hbc) hfe
    obtain ⟨t, ht, hft⟩ := List.mem_filterMap.1 (firstExtR_mem _ hfe)
    have hmt : matchDigits45 t.desc = true := by
      by_contra hc
      rw [Bool.not_eq_true] at hc
      rw [hc] at hft
      simp at hft
    have htop : top = NumCand.mk t.desc (tokMaxX t) (tokMinY t) := by
      rw [hmt] at hft
      have hv := Nat.not_lt.2 (hverts t ht)
      simp only [Bool.not_true, Bool.false_eq_true, if_false, if_neg hv,
        Option.some.injEq] at hft
      exact hft.symm
    refine ⟨t, ht, hmt, by rw [hres, htop], ?_, ?_⟩
    · intro u hu hmu
      have hcu := checkCands_mem hverts hu hmu
      have hle := hmin _ hcu
      rw [htop] at hle
      rcases (Prod.Lex.le_iff _ _).1 hle with hlt | ⟨heq, _⟩
      · exact le_of_lt hlt
      · exact le_of_eq heq
    · intro u hu hmu heqy
      have hcu := checkCands_mem hverts hu hmu
      have hle := hmin _ hcu
      rw [htop] at hle
      rcases (Prod.Lex.le_iff _ _).1 hle with hlt | ⟨_, hsnd⟩
      · exact absurd (heqy ▸ hlt) (lt_irrefl _)
      · exact neg_le_neg_iff.1 hsnd

/-- Witness for C7 at a concrete input: four digit tokens, two tied at the
smallest `min_y`, the rightmost of which wins. -/
theorem spatial_check_number_topmost_witness :
    ((∀ l ∈ (linesOf ftW).take 10, matchDigits45 l = false) ∧ 1 < toksW.length ∧
      (∀ t ∈ toksW.drop 1, 4 ≤ t.verts.length) ∧
      (∃ t ∈ toksW.drop 1, matchDigits45 t.desc = true)) ∧
    (∃ t ∈ toksW.drop 1, matchDigits45 t.desc = true ∧
      extractCheckNumber ftW toksW = t.desc ∧
      (∀ u ∈ toksW.drop 1, matchDigits45 u.desc = true → tokMinY t ≤ tokMinY u) ∧
      (∀ u ∈ toksW.drop 1, matchDigits45 u.desc = true → tokMinY u = tokMinY t →
        tokMaxX u ≤ tokMaxX t)) :=
  ⟨⟨by decide, by decide, by decide, by decide⟩,
    spatial_check_number_topmost ftW toksW (by decide) (by decide) (by decide) (by decide)⟩

/-- C10: the confidence result is independent of the full-text argument; the
score depends only on the extracted payee and check-number strings. -/
theorem confidence_fulltext_independent (payee check t1 t2 : Str) :
    calculateConfidence payee check t1 = calculateConfidence payee check t2 := rfl

/-- C3: for every pair of payee and check-number strings and every full text,
the confidence lies in [0, 0.98]; when both are the sentinel it is exactly
0.2. -/
theorem confidence_bounds :
    (∀ payee check fullText : Str, 0 ≤ calculateConfidence payee check fullText ∧
      calculateConfidence payee check fullText ≤ 0.98) ∧
    (∀ fullText : Str, calculateConfidence NOT_FOUND NOT_FOUND fullText = 0.2) := by
  constructor
  · intro p c t
    refine ⟨le_max_left 0 _, max_le (by norm_num) (min_le_right _ _)⟩
  · intro t
    have hc : (!NOT_FOUND.isEmpty && decide (NOT_FOUND ≠ NOT_FOUND)) = false := by decide
    rw [calculateConfidence]
    simp only [hc, Bool.false_eq_true, if_false]
    norm_num

/-- C9 (code bug): on an OCR response with non-empty text whose tokens match
no phrase candidate, the alternative image path raises `UnboundLocalError`
(ocr.py line 78: `phrase_box` is only assigned inside `if phrase_boxes:`),
instead of containing the failure as the sentinel. -/
theorem image_path_unbound_local_bug :
    ocrExtractPayeePhase (("HELLO").data)
      [Tok.mk (("HELLO").data) (sqVerts 0 0), Tok.mk (("HELLO").data) (sqVerts 0 0)] =
      Except.error PyErr.unboundLocalError := by
  rfl

/-- Counterexample for C8 as stated: on the scenario line the extractor does
not return `"ACME SUPPLY CO."`; cleaning strips the trailing period. -/
theorem strategy1_acme_counterexample :
    ¬ (extractPayeeName acmeFullText [] = ("ACME SUPPLY CO.").data) := by decide

/-- C8 (amended): on the scenario line, strategy 1 of payee extraction
succeeds and returns `"ACME SUPPLY CO"` (cleaning strips the trailing
period), the business-entity-suffix condition of the quality heuristic holds
for it (the +0.45 bonus branch), and its quality score evaluates to
0.45 + 0.2 + 0.15 − 0.05 = 3/4. -/
theorem strategy1_acme_amended :
    extractPayeeName acmeFullText [] = ("ACME SUPPLY CO").data ∧
    entitySuffixHit (pyUpper (pyStrip (("ACME SUPPLY CO").data))) = true ∧
    scorePayeeQuality (("ACME SUPPLY CO").data) = 3 / 4 := by
  refine ⟨by decide, by decide, ?_⟩
  have hs0 : pyStrip (("ACME SUPPLY CO").data) = ("ACME SUPPLY CO").data := by decide
  have hw : pyWords (("ACME SUPPLY CO").data) =
      [("ACME").data, ("SUPPLY").data, ("CO").data] := by decide
  have h8 : pyUpper (("ACME SUPPLY CO").data) = ("ACME SUPPLY CO").data := by decide
  have h2 : entitySuffixHit (("ACME SUPPLY CO").data) = true := by decide
  have h5 : (("ACME SUPPLY CO").data).any Char.isDigit = false := by decide
  have h6 : endsCitySt (("ACME SUPPLY CO").data) = false := by decide
  have h7 : (List.filter wordAmountLike [("ACME").data, ("SUPPLY").data, ("CO").data]).length
      = 0 := by decide
  have h9 : (("ACME SUPPLY CO").data).any Char.isUpper = true := by decide
  have h10 : (("ACME SUPPLY CO").data).any Char.isLower = false := by decide
  rw [scorePayeeQuality, hs0, hw, h8]
  simp only [h2, h5, h6, h7, h9, h10]
  norm_num

/-! ## C4: cleaning is not idempotent, but iterating it converges -/

/-- A suffix either is the whole list or is strictly shorter. -/
theorem suffix_eq_or_lt {s t : Str} (h : t <:+ s) : t = s ∨ t.length < s.length := by
  rcases lt_or_eq_of_le (List.IsSuffix.length_le h) with hlt | heq
  · exact Or.inr hlt
  · exact Or.inl (List.IsSuffix.eq_of_length h heq)

theorem dropTagWs_suffix (u1 l1 u2 l2 : Char) (s : Str) : dropTagWs u1 l1 u2 l2 s <:+ s := by
  match s with
  | [] => exact List.suffix_refl _
  | [a] => exact List.suffix_refl _
  | a :: b :: rest =>
    simp only [dropTagWs]
    split
    · exact (List.dropWhile_suffix pyIsSpace).trans ⟨[a, b], rfl⟩
    · exact List.suffix_refl _

theorem stripLeadRdOf_suffix (s : Str) : stripLeadRdOf s <:+ s := by
  rw [stripLeadRdOf]
  exact (dropTagWs_suffix _ _ _ _ _).trans
    ((dropTagWs_suffix _ _ _ _ _).trans (List.dropWhile_suffix pyIsSpace))

theorem comp_eq_or_lt {f g : Str → Str}
    (hf : ∀ s, f s = s ∨ (f s).length < s.length)
    (hg : ∀ s, g s = s ∨ (g s).length < s.length) (s : Str) :
    g (f s) = s ∨ (g (f s)).length < s.length := by
  rcases hf s with h1 | h1
  · rw [h1]
    exact hg s
  · rcases hg (f s) with h2 | h2
    · rw [h2]
      exact Or.inr h1
    · exact Or.inr (lt_trans h2 h1)

theorem stripLeadRdOf_eq_or_lt (s : Str) :
    stripLeadRdOf s = s ∨ (stripLeadRdOf s).length < s.length :=
  suffix_eq_or_lt (stripLeadRdOf_suffix s)

theorem pyStripP_eq_or_lt (p : Char → Bool) (s : Str) :
    pyStripP p s = s ∨ (pyStripP p s).length < s.length := by
  have h1 : ∀ t : Str, t.dropWhile p = t ∨ (t.dropWhile p).length < t.length :=
    fun t => suffix_eq_or_lt (List.dropWhile_suffix p)
  have h2 : ∀ t : Str, dropTrailWhile p t = t ∨ (dropTrailWhile p t).length < t.length := by
    intro t
    rcases h1 t.reverse with h | h
    · left
      rw [dropTrailWhile, h, List.reverse_reverse]
    · right
      rw [dropTrailWhile, List.length_reverse]
      rw [List.length_reverse] at h
      exact h
  exact comp_eq_or_lt h1 h2 s

theorem stripPunct_eq_or_lt (s : Str) :
    stripPunct s = s ∨ (stripPunct s).length < s.length :=
  pyStripP_eq_or_lt _ s

theorem pyStrip_eq_or_lt (s : Str) :
    pyStrip s = s ∨ (pyStrip s).length < s.length :=
  pyStripP_eq_or_lt _ s

theorem stripLeadDollar_eq_or_lt (s : Str) :
    stripLeadDollar s = s ∨ (stripLeadDollar s).length < s.length := by
  match s with
  | [] => exact Or.inl rfl
  | c :: rest =>
    by_cases hc : c = '$'
    · subst hc
      right
      show (rest.dropWhile pyIsSpace).length < rest.length + 1
      have := List.IsSuffix.length_le (List.dropWhile_suffix (l := rest) pyIsSpace)
      omega
    · left
      cases c
      simp only [stripLeadDollar]
      split
      · simp_all
      · rfl

theorem subDollarTail_eq_or_lt (s : Str) :
    subDollarTail s = s ∨ (subDollarTail s).length < s.length := by
  rw [subDollarTail]
  cases hf : (List.range s.length).find?
      (fun q => ((s.drop q).head? == some '$') && goodDollarTail (s.drop (q + 1))) with
  | none => exact Or.inl rfl
  | some q =>
    right
    have hq : q < s.length := List.mem_range.1 (List.mem_of_find?_eq_some hf)
    have hple : q - runLen pyIsSpace (s.take q).reverse ≤ q := Nat.sub_le _ _
    rw [List.length_append, List.length_take]
    split
    case isTrue hcont =>
      have hne : s.drop (q + 1) ≠ [] := by
        intro hnil
        rw [hnil] at hcont
        simp at hcont
      have : q + 1 < s.length := by
        have := List.length_drop (q + 1) s
        rcases Nat.lt_or_ge (q + 1) s.length with h | h
        · exact h
        · rw [List.drop_eq_nil_of_le h] at hne
          exact absurd rfl hne
      simp only [List.length_cons, List.length_nil]
      omega
    case isFalse hcont =>
      simp only [List.length_nil]
      omega

theorem subTrailNum_eq_or_lt (s : Str) :
    subTrailNum s = s ∨ (subTrailNum s).length < s.length := by
  rw [subTrailNum]
  cases hf : (List.range s.length).find? (fun p => trailNumTail (s.drop p)) with
  | none => exact Or.inl rfl
  | some p =>
    right
    have hp : p < s.length := List.mem_range.1 (List.mem_of_find?_eq_some hf)
    rw [List.length_take]
    omega

theorem cleanPayeeName_eq_or_lt (s : Str) :
    cleanPayeeName s = s ∨ (cleanPayeeName s).length < s.length := by
  have h2 := comp_eq_or_lt stripLeadRdOf_eq_or_lt stripPunct_eq_or_lt
  have h3 := comp_eq_or_lt h2 stripLeadDollar_eq_or_lt
  have h4 := comp_eq_or_lt h3 subDollarTail_eq_or_lt
  have h5 := comp_eq_or_lt h4 subTrailNum_eq_or_lt
  have h6 := comp_eq_or_lt h5 pyStrip_eq_or_lt
  exact h6 s

theorem cleanN_of_fix {s : Str} (h : cleanPayeeName s = s) : ∀ n, cleanN n s = s := by
  intro n
  induction n with
  | zero => rfl
  | succ n ih =>
    show cleanN n (cleanPayeeName s) = s
    rw [h]
    exact ih

theorem cleanN_reaches_fix : ∀ n (s : Str), s.length ≤ n →
    cleanPayeeName (cleanN n s) = cleanN n s := by
  intro n
  induction n with
  | zero =>
    intro s h
    have hnil : s = [] := List.length_eq_zero.1 (Nat.le_zero.1 h)
    subst hnil
    rfl
  | succ n ih =>
    intro s hle
    by_cases hfix : cleanPayeeName s = s
    · have hn : cleanN (n + 1) s = s := cleanN_of_fix hfix (n + 1)
      rw [hn]
      exact hfix
    · have hlt := (cleanPayeeName_eq_or_lt s).resolve_left hfix
      have hle2 : (cleanPayeeName s).length ≤ n := by omega
      show cleanPayeeName (cleanN n (cleanPayeeName s)) = cleanN n (cleanPayeeName s)
      exact ih _ hle2

/-- Counterexample for C4: cleaning is not idempotent.  On `"A 12 34"` the
trailing-number rule removes only `" 34"`, and a second application removes
`" 12"`. -/
theorem clean_payee_not_idempotent :
    ¬ (cleanPayeeName (cleanPayeeName (("A 12 34").data)) =
        cleanPayeeName (("A 12 34").data)) := by decide

/-- C4 (amended): one application of cleaning need not be idempotent; instead
each application either fixes its input or strictly shortens it, so iterating
the cleaning length-many times reaches a fixed point of `clean_payee_name`. -/
theorem clean_payee_convergence :
    (∀ s : Str, cleanPayeeName s = s ∨ (cleanPayeeName s).length < s.length) ∧
    (∀ s : Str, cleanPayeeName (cleanIter s) = cleanIter s) :=
  ⟨cleanPayeeName_eq_or_lt, fun s => cleanN_reaches_fix s.length s le_rfl⟩

/-! ## C1/C2: assembler output properties -/

theorem extractRow_some_nonempty {strptime : Str → Str → Option ℤ} {pyFloat : Str → Option ℚ}
    {ci : Nat} {di ai : Option Nat} {row : List Str} {c : CheckTransaction}
    (h : extractRow strptime pyFloat ci di ai row = some c) : c.check_number ≠ [] := by
  rw [extractRow.eq_def] at h
  split at h
  next => simp at h
  next cell hcell =>
    dsimp only at h
    split at h
    next => simp at h
    next hemp =>
      split at h
      next => simp at h
      next date_obj hd =>
        split at h
        next => simp at h
        next amount ha =>
          simp only [Option.some.injEq] at h
          subst h
          show pyStrip cell ≠ []
          intro hnil
          rw [hnil] at hemp
          simp at hemp

theorem parseCsvSection_mem {colMap : List ColumnInfo → FieldMapping}
    {strptime : Str → Str → Option ℤ} {pyFloat : Str → Option ℚ}
    {sec : Sectn} {c : CheckTransaction}
    (h : c ∈ parseCsvSection colMap strptime pyFloat sec) :
    ∃ (ci : Nat) (di ai : Option Nat) (row : List Str),
      extractRow strptime pyFloat ci di ai row = some c := by
  rw [parseCsvSection] at h
  split at h
  next => simp at h
  next =>
    dsimp only at h
    split at h
    next => simp at h
    next check_col_idx hmap =>
      obtain ⟨row, _, hrow⟩ := List.mem_filterMap.1 h
      exact ⟨check_col_idx, _, _, row, hrow⟩

theorem parseCsvSection_of_empty {colMap : List ColumnInfo → FieldMapping}
    {strptime : Str → Str → Option ℤ} {pyFloat : Str → Option ℚ} {sec : Sectn}
    (h : sec.rows.isEmpty = true) : parseCsvSection colMap strptime pyFloat sec = [] := by
  rw [parseCsvSection, if_pos h]

theorem foldl_dedupStep_fst (l : List CheckTransaction) :
    ∀ (a : List CheckTransaction) (seen : List Str),
      (l.foldl dedupStep (a, seen)).1 = a ++ dedupGo seen l := by
  induction l with
  | nil =>
    intro a seen
    simp [dedupGo]
  | cons c cs ih =>
    intro a seen
    show (cs.foldl dedupStep (dedupStep (a, seen) c)).1 = _
    rw [dedupStep]
    by_cases hc : seen.contains c.check_number
    · rw [if_pos hc, dedupGo, if_pos hc]
      exact ih a seen
    · rw [if_neg hc, dedupGo, if_neg hc]
      dsimp only
      rw [ih (a ++ [c]) (seen ++ [c.check_number]), List.append_assoc, List.singleton_append]

theorem sections_foldl_eq (colMap : List ColumnInfo → FieldMapping)
    (strptime : Str → Str → Option ℤ) (pyFloat : Str → Option ℚ)
    (sections : List Sectn) :
    ∀ st : List CheckTransaction × List Str,
      sections.foldl
        (fun st sec =>
          if sec.rows.isEmpty then st
          else (parseCsvSection colMap strptime pyFloat sec).foldl dedupStep st) st =
      ((sections.map (parseCsvSection colMap strptime pyFloat)).flatten).foldl dedupStep st := by
  induction sections with
  | nil => intro st; rfl
  | cons sec ss ih =>
    intro st
    rw [List.foldl_cons, List.map_cons, List.flatten_cons, List.foldl_append]
    by_cases hemp : sec.rows.isEmpty
    · rw [if_pos hemp, parseCsvSection_of_empty hemp, List.foldl_nil]
      exact ih st
    · rw [if_neg hemp]
      exact ih _

theorem contains_append_str (l1 l2 : List Str) (a : Str) :
    (l1 ++ l2).contains a = (l1.contains a || l2.contains a) := by
  simp [List.contains]

theorem firstOccIn_nil (c : CheckTransaction) : ¬ FirstOccIn [] c := by
  rintro ⟨k, hk, _⟩
  simp at hk

theorem firstOccIn_cons_self (x : CheckTransaction) (xs : List CheckTransaction) :
    FirstOccIn (x :: xs) x :=
  ⟨0, by simp, by omega⟩

theorem firstOccIn_cons_of_ne {x c : CheckTransaction} {xs : List CheckTransaction}
    (hne : c.check_number ≠ x.check_number) :
    FirstOccIn (x :: xs) c ↔ FirstOccIn xs c := by
  constructor
  · rintro ⟨k, hk, hj⟩
    cases k with
    | zero =>
      rw [List.getElem?_cons_zero] at hk
      injection hk with hk
      exact absurd (hk ▸ rfl) hne
    | succ j =>
      rw [List.getElem?_cons_succ] at hk
      refine ⟨j, hk, ?_⟩
      intro j2 hj2 d hd
      exact hj (j2 + 1) (by omega) d (by rw [List.getElem?_cons_succ]; exact hd)
  · rintro ⟨k, hk, hj⟩
    refine ⟨k + 1, by rw [List.getElem?_cons_succ]; exact hk, ?_⟩
    intro j2 hj2 d hd
    cases j2 with
    | zero =>
      rw [List.getElem?_cons_zero] at hd
      injection hd with hd
      rw [← hd]
      exact fun he => hne he.symm
    | succ j3 =>
      rw [List.getElem?_cons_succ] at hd
      exact hj j3 (by omega) d hd

theorem dedupGo_mem (l : List CheckTransaction) :
    ∀ (seen : List Str) (c : CheckTransaction),
      c ∈ dedupGo seen l ↔ seen.contains c.check_number = false ∧ FirstOccIn l c := by
  induction l with
  | nil =>
    intro seen c
    simp [dedupGo, firstOccIn_nil]
  | cons x xs ih =>
    intro seen c
    rw [dedupGo]
    by_cases hx : seen.contains x.check_number
    · rw [if_pos hx, ih]
      constructor
      · rintro ⟨h1, h2⟩
        have hne : c.check_number ≠ x.check_number := by
          intro he
          rw [he] at h1
          rw [hx] at h1
          exact Bool.noConfusion h1
        exact ⟨h1, (firstOccIn_cons_of_ne hne).2 h2⟩
      · rintro ⟨h1, h2⟩
        have hne : c.check_number ≠ x.check_number := by
          intro he
          rw [he] at h1
          rw [hx] at h1
          exact Bool.noConfusion h1
        exact ⟨h1, (firstOccIn_cons_of_ne hne).1 h2⟩
    · rw [if_neg hx]
      rw [Bool.not_eq_true] at hx
      constructor
      · intro hmem
        rcases List.mem_cons.1 hmem with hcx | hcs
        · subst hcx
          exact ⟨hx, firstOccIn_cons_self c xs⟩
        · obtain ⟨h1, h2⟩ := (ih _ c).1 hcs
          have h1' : (seen.contains c.check_number || (c.check_number == x.check_number))
              = false := by
            have hca := contains_append_str seen [x.check_number] c.check_number
            rw [hca] at h1
            simpa using h1
          rcases Bool.or_eq_false_iff.1 h1' with ⟨ha, hb⟩
          have hne : c.check_number ≠ x.check_number := by
            intro he
            rw [he] at hb
            simp at hb
          exact ⟨ha, (firstOccIn_cons_of_ne hne).2 h2⟩
      · rintro ⟨h1, h2⟩
        obtain ⟨k, hk, hj⟩ := h2
        cases k with
        | zero =>
          rw [List.getElem?_cons_zero] at hk
          injection hk with hk
          exact List.mem_cons.2 (Or.inl hk.symm)
        | succ j =>
          have hne : c.check_number ≠ x.check_number := by
            have := hj 0 (by omega) x (by rw [List.getElem?_cons_zero])
            exact fun he => this he.symm
          refine List.mem_cons.2 (Or.inr ((ih _ c).2 ⟨?_, ?_⟩))
          · rw [contains_append_str, h1]
            simpa using hne
          · rw [List.getElem?_cons_succ] at hk
            refine ⟨j, hk, ?_⟩
            intro j2 hj2 d hd
            exact hj (j2 + 1) (by omega) d (by rw [List.getElem?_cons_succ]; exact hd)

theorem dedupGo_nodup (l : List CheckTransaction) :
    ∀ seen : List Str,
      (∀ c ∈ dedupGo seen l, seen.contains c.check_number = false) ∧
      ((dedupGo seen l).map CheckTransaction.check_number).Nodup := by
  induction l with
  | nil =>
    intro seen
    exact ⟨by simp [dedupGo], by simp [dedupGo]⟩
  | cons x xs ih =>
    intro seen
    rw [dedupGo]
    by_cases hx : seen.contains x.check_number
    · rw [if_pos hx]
      exact ih seen
    · rw [if_neg hx]
      rw [Bool.not_eq_true] at hx
      obtain ⟨ih1, ih2⟩ := ih (seen ++ [x.check_number])
      constructor
      · intro c hc
        rcases List.mem_cons.1 hc with hcx | hcs
        · subst hcx
          exact hx
        · have := ih1 c hcs
          rw [contains_append_str] at this
          exact (Bool.or_eq_false_iff.1 this).1
      · rw [List.map_cons]
        refine List.nodup_cons.2 ⟨?_, ih2⟩
        intro hmem
        obtain ⟨c, hc, hce⟩ := List.mem_map.1 hmem
        have := ih1 c hc
        rw [hce, contains_append_str] at this
        simp at this

theorem parseStatement_eq (colMap : List ColumnInfo → FieldMapping)
    (strptime : Str → Str → Option ℤ) (pyFloat : Str → Option ℚ) (grid : List (List Str)) :
    parseStatement colMap strptime pyFloat grid =
      List.insertionSort (fun a b : CheckTransaction => a.check_number ≤ b.check_number)
        (dedupGo [] (allRecords colMap strptime pyFloat grid)) := by
  rw [parseStatement]
  by_cases hsec : (splitSections grid).isEmpty
  · rw [if_pos hsec]
    have hnil : splitSections grid = [] := List.isEmpty_iff.1 hsec
    rw [allRecords, hnil]
    rfl
  · rw [if_neg hsec]
    dsimp only
    rw [sections_foldl_eq, foldl_dedupStep_fst, List.nil_append, allRecords]

/-- C1: every record returned by `parse_statement` has a non-empty
identifier, and the returned sequence is sorted non-decreasing by identifier
under the lexicographic order on strings. -/
theorem statement_ids_nonempty_sorted (colMap : List ColumnInfo → FieldMapping)
    (strptime : Str → Str → Option ℤ) (pyFloat : Str → Option ℚ) (grid : List (List Str))
    (hrect : isRectGrid grid = true) :
    (∀ c ∈ parseStatement colMap strptime pyFloat grid, c.check_number ≠ []) ∧
    List.Sorted (fun a b : CheckTransaction => a.check_number ≤ b.check_number)
      (parseStatement colMap strptime pyFloat grid) := by
  rw [parseStatement_eq]
  constructor
  · intro c hc
    have hc2 : c ∈ dedupGo [] (allRecords colMap strptime pyFloat grid) :=
      (List.perm_insertionSort _ _).mem_iff.1 hc
    obtain ⟨k, hk, _⟩ := ((dedupGo_mem _ _ c).1 hc2).2
    have hcmem : c ∈ allRecords colMap strptime pyFloat grid := List.getElem?_mem hk
    rw [allRecords] at hcmem
    obtain ⟨l, hl, hcl⟩ := List.mem_flatten.1 hcmem
    obtain ⟨sec, _, hsec⟩ := List.mem_map.1 hl
    rw [← hsec] at hcl
    obtain ⟨ci, di, ai, row, hrow⟩ := parseCsvSection_mem hcl
    exact extractRow_some_nonempty hrow
  · letI : IsTotal CheckTransaction (fun a b => a.check_number ≤ b.check_number) :=
      ⟨fun a b => le_total _ _⟩
    letI : IsTrans CheckTransaction (fun a b => a.check_number ≤ b.check_number) :=
      ⟨fun _ _ _ h1 h2 => le_trans h1 h2⟩
    exact List.sorted_insertionSort _ _

/-- Witness for C1 at a concrete rectangular grid (note `"10" < "9"`
lexicographically). -/
theorem statement_ids_nonempty_sorted_witness :
    isRectGrid gridW1 = true ∧
    ((∀ c ∈ parseStatement cmFallback stNone pfNone gridW1, c.check_number ≠ []) ∧
      List.Sorted (fun a b : CheckTransaction => a.check_number ≤ b.check_number)
        (parseStatement cmFallback stNone pfNone gridW1)) :=
  ⟨by decide, statement_ids_nonempty_sorted cmFallback stNone pfNone gridW1 (by decide)⟩

/-- C2: no two returned records share an identifier, and a record is returned
iff it is the first record carrying its identifier among all section records
in document order (first occurrence wins, later duplicates are dropped). -/
theorem statement_dedup_first_wins (colMap : List ColumnInfo → FieldMapping)
    (strptime : Str → Str → Option ℤ) (pyFloat : Str → Option ℚ) (grid : List (List Str))
    (hrect : isRectGrid grid = true) :
    ((parseStatement colMap strptime pyFloat grid).map CheckTransaction.check_number).Nodup ∧
    ∀ c, c ∈ parseStatement colMap strptime pyFloat grid ↔
      FirstOccIn (allRecords colMap strptime pyFloat grid) c := by
  rw [parseStatement_eq]
  constructor
  · have hperm := List.perm_insertionSort
      (fun a b : CheckTransaction => a.check_number ≤ b.check_number)
      (dedupGo [] (allRecords colMap strptime pyFloat grid))
    exact ((hperm.map CheckTransaction.check_number).nodup_iff).2
      (dedupGo_nodup (allRecords colMap strptime pyFloat grid) []).2
  · intro c
    rw [(List.perm_insertionSort _ _).mem_iff, dedupGo_mem]
    constructor
    · rintro ⟨_, h⟩
      exact h
    · intro h
      exact ⟨rfl, h⟩

/-- Witness for C2 at a concrete grid with two sections sharing identifier
`"2050"`. -/
theorem statement_dedup_first_wins_witness :
    isRectGrid gridW2 = true ∧
    (((parseStatement cmFallback stNone pfNone gridW2).map
        CheckTransaction.check_number).Nodup ∧
      ∀ c, c ∈ parseStatement cmFallback stNone pfNone gridW2 ↔
        FirstOccIn (allRecords cmFallback stNone pfNone gridW2) c) :=
  ⟨by decide, statement_dedup_first_wins cmFallback stNone pfNone gridW2 (by decide)⟩
